import Mathlib

/-!
Shallow embedding of the invoice-annotation application (`app.py`) and
verification of its specification.

The embedding covers:
* the RUT helpers `_clean_rut`, `_calc_dv`, `_format_miles`, `format_rut`,
  `validate_rut` (app.py lines 18-67);
* the invoice-number extraction `extraer_numero_factura` (lines 97-114),
  with the regex `(?:Nº|N°|No|N\.o|Nro\.?)\s*([0-9]{5,8})` (IGNORECASE)
  transcribed as an explicit matcher;
* the PDF annotation `insertar_firma_y_texto_en_pdf` (lines 141-237) over an
  abstract page model: a page carries its text-search index (the behaviour of
  `page.search_for`, supplied by the external PDF library) and the ordered
  list of drawing operations performed on it.

Machine arithmetic does not occur (Python integers are unbounded, geometry is
exact); coordinates are modelled as rationals.
-/

namespace App

/-! ## RUT helpers (app.py lines 18-67) -/

/-- Characters kept by `_clean_rut`: the class `[0-9kK]` of
`re.sub(r"[^0-9kK]", "", rut)` (app.py line 20). -/
def keepRut (c : Char) : Bool :=
  c.isDigit || c = 'k' || c = 'K'

/-- List-level body of `_clean_rut`: drop every character outside `[0-9kK]`,
then lower-case (app.py line 20). -/
def cleanL (l : List Char) : List Char :=
  (l.filter keepRut).map Char.toLower

/-- `_clean_rut` from app.py lines 18-20. -/
def _clean_rut (rut : String) : String :=
  String.mk (cleanL rut.data)

/-- Python `int(d)` on a single character, as used by `_calc_dv` (line 27):
defined exactly on decimal digits. -/
def charDigit? (c : Char) : Option Nat :=
  if c.isDigit then some (c.toNat - 48) else none

/-- The accumulation loop of `_calc_dv` (app.py lines 24-28): state `s` is the
running sum, `mult` the current weight; the weight steps 2,3,4,5,6,7 and
restarts at 2 after 7.  `none` models the `ValueError` Python's `int` raises
on a non-digit. -/
def dvLoop : List Char → Nat → Nat → Option Nat
  | [], s, _ => some s
  | d :: rest, s, mult =>
    match charDigit? d with
    | none => none
    | some n => dvLoop rest (s + n * mult) (if mult = 7 then 2 else mult + 1)

/-- The tail of `_calc_dv` (app.py lines 29-34): `r = 11 - (s % 11)`, mapped to
`"0"` when 11, `"k"` when 10, and the decimal digit of `r` otherwise
(`str(r)` with `1 ≤ r ≤ 9` is that single digit character). -/
def dvOut (s : Nat) : String :=
  let r := 11 - s % 11
  if r = 11 then "0" else if r = 10 then "k" else String.mk [Nat.digitChar r]

/-- `_calc_dv` from app.py lines 22-34, on a character list. -/
def _calc_dvL (num : List Char) : Option String :=
  match dvLoop num.reverse 0 2 with
  | none => none
  | some s => some (dvOut s)

/-- `_calc_dv` from app.py lines 22-34.  The loop reads the digits of `num`
right to left (`for d in reversed(num)`). -/
def _calc_dv (num : String) : Option String :=
  _calc_dvL num.data

/-- Python `cuerpo.isdigit()` (app.py lines 57, 64): true iff the string is
non-empty and every character is a decimal digit. -/
def pyIsDigit (l : List Char) : Bool :=
  !l.isEmpty && l.all Char.isDigit

/-- The grouping loop of `_format_miles` (app.py lines 40-45) acting on the
*reversed* body: peel groups of three while more than three characters
remain; the final group keeps whatever is left (1 to 3 characters). -/
def grpParts : List Char → List (List Char)
  | [] => []
  | [a] => [[a]]
  | [a, b] => [[a, b]]
  | [a, b, c] => [[a, b, c]]
  | a :: b :: c :: rest => [a, b, c] :: grpParts rest

/-- Python `".".join(partes)` (app.py line 46). -/
def joinDots : List (List Char) → List Char
  | [] => []
  | [p] => p
  | p :: rest => p ++ '.' :: joinDots rest

/-- `_format_miles` (app.py lines 36-46) on a character list: the parts built
right to left by the while loop, re-ordered left to right and joined with
dots. -/
def milesL (cuerpo : List Char) : List Char :=
  joinDots (((grpParts cuerpo.reverse).map List.reverse).reverse)

/-- `_format_miles` from app.py lines 36-46. -/
def _format_miles (cuerpo : String) : String :=
  String.mk (milesL cuerpo.data)

/-- `format_rut` (app.py lines 48-59) after cleaning: empty stays empty, a
single character is returned as is, a non-numeric body is returned uncut,
otherwise the body gets thousands dots and is joined to the DV with `-`. -/
def formatCoreL (r : List Char) : List Char :=
  if r.length = 0 then []
  else if r.length = 1 then r
  else
    let cuerpo := r.dropLast
    let dv := r.getLastD 'x'
    if pyIsDigit cuerpo then milesL cuerpo ++ '-' :: [dv] else r

/-- `format_rut` from app.py lines 48-59. -/
def format_rut (rut : String) : String :=
  String.mk (formatCoreL (cleanL rut.data))

/-- `validate_rut` from app.py lines 61-67: false when the cleaned value has
fewer than 2 characters or its body is not purely numeric; otherwise compare
the computed DV with the last character. -/
def validate_rut (rut : String) : Bool :=
  if (cleanL rut.data).length < 2 || !(pyIsDigit (cleanL rut.data).dropLast)
  then false
  else decide (_calc_dvL (cleanL rut.data).dropLast =
    some (String.mk [(cleanL rut.data).getLastD 'x']))

/-! ## Invoice number extraction (app.py lines 97-114) -/

/-- Python's `\s` character class, restricted to the whitespace characters
that can occur around the markers. -/
def pySpace (c : Char) : Bool :=
  c = ' ' || c = '\t' || c = '\n' || c = '\r' || c = '\x0b' || c = '\x0c'

/-- Case-insensitive literal match (the regex is compiled with
`re.IGNORECASE`); returns the rest of the input after the literal. -/
def matchLit : List Char → List Char → Option (List Char)
  | [], s => some s
  | _ :: _, [] => none
  | p :: ps, c :: cs => if c.toLower = p.toLower then matchLit ps cs else none

/-- Consume `\.?` greedily (the character after an optional dot is never a
whitespace or digit match, so greediness is complete here). -/
def optDot : List Char → List Char
  | '.' :: rest => rest
  | s => s

/-- The marker alternation `(?:Nº|N°|No|N\.o|Nro\.?)` of the regex at app.py
line 102.  The five alternatives differ pairwise in their second character,
so ordered choice without backtracking is faithful. -/
def markerMatch (s : List Char) : Option (List Char) :=
  match matchLit "Nº".data s with
  | some r => some r
  | none =>
    match matchLit "N°".data s with
    | some r => some r
    | none =>
      match matchLit "No".data s with
      | some r => some r
      | none =>
        match matchLit "N.o".data s with
        | some r => some r
        | none =>
          match matchLit "Nro".data s with
          | some r => some (optDot r)
          | none => none

/-- Attempt of the full pattern `(?:Nº|N°|No|N\.o|Nro\.?)\s*([0-9]{5,8})` at
one position: marker, then greedy `\s*` (whitespace and digits are disjoint,
so no backtracking is possible), then the greedy digit run of length 5 to 8;
returns the capture group. -/
def matchAt (s : List Char) : Option (List Char) :=
  match markerMatch s with
  | none => none
  | some rest =>
    if 5 ≤ (((rest.dropWhile pySpace).takeWhile Char.isDigit).take 8).length
    then some (((rest.dropWhile pySpace).takeWhile Char.isDigit).take 8)
    else none

/-- `patron.search(texto)` (app.py line 107): try the pattern at each position
left to right, returning the first capture. -/
def searchPat : List Char → Option (List Char)
  | [] => none
  | s :: rest =>
    match matchAt (s :: rest) with
    | some d => some d
    | none => searchPat rest

/-- The page loop of `extraer_numero_factura` (app.py lines 105-110) over the
extracted texts of the pages, in document order: return the capture of the
first page with a match. -/
def extraer_numero_factura : List String → Option String
  | [] => none
  | t :: rest =>
    match searchPat t.data with
    | some d => some (String.mk d)
    | none => extraer_numero_factura rest

/-- `extraer_numero_factura` at the byte-buffer interface (app.py lines
97-114): `decode` stands for `fitz.open` plus per-page `get_text`, yielding
the page texts or failing; the surrounding `try/except Exception: pass`
turns any failure into the `return None` fall-through. -/
def extraer_desde_bytes {α : Type} (decode : α → Option (List String)) (b : α) :
    Option String :=
  match decode b with
  | none => none
  | some pages => extraer_numero_factura pages

/-! ## Page model and annotation (app.py lines 141-237) -/

/-- A rectangle in page coordinates, as `fitz.Rect` (origin top-left, `y`
grows downward). -/
structure Rect where
  x0 : ℚ
  y0 : ℚ
  x1 : ℚ
  y1 : ℚ
deriving DecidableEq

/-- The signature raster: only its dimensions matter to the geometry
(app.py lines 188-191); `tag` distinguishes distinct pixel contents. -/
structure Img where
  width : ℚ
  height : ℚ
  tag : Nat
deriving DecidableEq

/-- One drawing operation performed on a page, in the order the source issues
them: `insert_text`, `insert_image`, `draw_rect`, `insert_textbox`. -/
inductive Op where
  | insertText (pos : ℚ × ℚ) (text : String) (fontsize : ℚ) (fontname : String)
      (fill : ℚ × ℚ × ℚ)
  | insertImage (rect : Rect) (img : Img)
  | drawRect (rect : Rect) (color : ℚ × ℚ × ℚ) (width : ℚ)
  | insertTextbox (rect : Rect) (text : String) (fontsize : ℚ) (fontname : String)
      (align : ℚ) (fill : ℚ × ℚ × ℚ)
deriving DecidableEq

/-- A PDF page: `searchFor` is the text index behind `page.search_for`
(supplied by the external library, so kept abstract as a function from label
to hit boxes in text order), `width` is `page.rect.width`, and `ops` the
drawing operations applied so far. -/
structure Page where
  searchFor : String → List Rect
  width : ℚ
  ops : List Op

/-- The inner helper `insertar_dato_campo` (app.py lines 159-171): when the
label is found and the text is non-empty, write the text at
`(box.x1 + offset_x, box.y0 + offset_y)` at size 11, font `helv`, black. -/
def insertar_dato_campo (pagina : Page) (etiqueta texto : String)
    (offset_x offset_y : ℚ) : Page :=
  match pagina.searchFor etiqueta with
  | [] => pagina
  | box :: _ =>
    if texto = "" then pagina
    else
      { pagina with
        ops := pagina.ops ++
          [Op.insertText (box.x1 + offset_x, box.y0 + offset_y) texto 11 "helv"
            (0, 0, 0)] }

/-- The signature block (app.py lines 180-193): at the first `"Firma"` hit,
place the raster in the rectangle with origin `(x0 + 10, y0 - 20)`, width
`firma_width` and height scaled by `firma_width / image width`. -/
def insertar_firma (pagina : Page) (firma_img : Img) (firma_width : ℚ) : Page :=
  match pagina.searchFor "Firma" with
  | [] => pagina
  | rect :: _ =>
    let x := rect.x0 + 10
    let y := rect.y0 - 20
    let escala := firma_width / firma_img.width
    let h_escala := firma_img.height * escala
    { pagina with
      ops := pagina.ops ++
        [Op.insertImage ⟨x, y, x + firma_width, y + h_escala⟩ firma_img] }

/-- Python `observacion.strip()`: drop leading and trailing whitespace. -/
def pyStrip (s : String) : List Char :=
  ((s.data.dropWhile pySpace).reverse.dropWhile pySpace).reverse

/-- The observation block (app.py lines 196-230): at the first `"CEDIBLE"`
hit, when the stripped observation is non-empty, centre the label and a
bordered 280x45 box below the anchor, write the label, draw the border, and
write the stripped text in the box.  `gtl` is `fitz.get_text_length`
(external text measurement). -/
def insertar_observacion (gtl : String → ℚ → String → ℚ) (pagina : Page)
    (observacion : String) : Page :=
  match pagina.searchFor "CEDIBLE" with
  | [] => pagina
  | cbox :: _ =>
    if pyStrip observacion = [] then pagina
    else
      let page_width := pagina.width
      let y_obs := cbox.y1 + 10
      let texto_label := "Observación:"
      let ancho_label := gtl texto_label 11 "helv"
      let ancho_campo : ℚ := 280
      let alto_campo : ℚ := 45
      let espacio : ℚ := 10
      let total_ancho := ancho_label + espacio + ancho_campo
      let x_inicio := (page_width - total_ancho) / 2
      let textbox_rect : Rect :=
        ⟨x_inicio + ancho_label + espacio, y_obs,
         x_inicio + ancho_label + espacio + ancho_campo, y_obs + alto_campo⟩
      { pagina with
        ops := pagina.ops ++
          [Op.insertText (x_inicio, y_obs + 5) texto_label 11 "helv" (0, 0, 0),
           Op.drawRect textbox_rect (0, 0, 0) (1 / 2),
           Op.insertTextbox textbox_rect (String.mk (pyStrip observacion)) 10
             "helv" 0 (0, 0, 0)] }

/-- `insertar_firma_y_texto_en_pdf` (app.py lines 141-237): open the document
(`none` when there is no page to take with `doc[-1]`), annotate the last page
with the four labelled fields, the signature and the observation block, and
serialize the document back. -/
def insertar_firma_y_texto_en_pdf (gtl : String → ℚ → String → ℚ)
    (doc : List Page) (firma_img : Img)
    (nombre recinto fecha_str rut observacion : String) (firma_width : ℚ) :
    Option (List Page) :=
  match doc.getLast? with
  | none => none
  | some pagina =>
    let p1 := insertar_dato_campo pagina "Nombre:" nombre 15 4
    let p2 := insertar_dato_campo p1 "Recinto:" recinto 15 7
    let p3 := insertar_dato_campo p2 "RUT:" rut 5 4
    let p4 := insertar_dato_campo p3 "Fecha:" fecha_str 20 8
    let p5 := insertar_firma p4 firma_img firma_width
    let p6 := insertar_observacion gtl p5 observacion
    some (doc.dropLast ++ [p6])

/-! ## Spec-side definitions

These definitions follow the wording of the specification (spec.md §4.7 and
§8) rather than the source, and are compared with the source embedding in the
refinement theorems below. -/

/-- Spec §4.7: weighted sum over the digits of the body taken right to left,
with weights cycling `2,3,4,5,6,7,2,3,...`: the digit at distance `k` from
the right end carries weight `2 + k % 6`. -/
def spec_sum_from (k : Nat) : List Char → Nat
  | [] => 0
  | c :: rest => (c.toNat - 48) * (2 + k % 6) + spec_sum_from (k + 1) rest

/-- Spec §4.7 `compute_check_digit`: `remainder = 11 - (sum mod 11)`; `"0"`
when the remainder is 11, `"k"` when 10, otherwise the decimal digit of the
remainder. -/
def spec_check_digit (body : String) : String :=
  let s := spec_sum_from 0 body.data.reverse
  let r := 11 - s % 11
  if r = 11 then "0" else if r = 10 then "k" else String.mk [Nat.digitChar r]

/-- Spec §4.7 thousands grouping, phrased on the reversed body: after every
three digits insert a `.` if digits remain. -/
def dotRev : List Char → List Char
  | a :: b :: c :: d :: rest => a :: b :: c :: '.' :: dotRev (d :: rest)
  | l => l

/-- Spec §4.7: insert `.` every 3 digits from the right. -/
def spec_miles (cuerpo : List Char) : List Char :=
  (dotRev cuerpo.reverse).reverse

/-- Spec §4.7 `format`: fewer than 2 cleaned characters, or a body that is
not purely numeric, is returned unformatted; otherwise dots in the body,
joined to the check digit with `-`. -/
def spec_format_rut (raw : String) : String :=
  let c := cleanL raw.data
  if c.length < 2 then String.mk c
  else if !(pyIsDigit c.dropLast) then String.mk c
  else String.mk (spec_miles c.dropLast ++ '-' :: [c.getLastD 'x'])

/-- Claim C2 / spec §8 as written: `validate(raw)` is true iff `clean(raw)`
ends in `compute_check_digit(clean(raw)[:-1])` (false where the check digit
is undefined because the body has a non-digit). -/
def spec_validate (raw : String) : Bool :=
  match _calc_dvL (cleanL raw.data).dropLast with
  | some dv => dv.data.isSuffixOf (cleanL raw.data)
  | none => false

/-- The amended C2: additionally require at least two cleaned characters
(the check digit over a body with a non-digit is already undefined, which the
`none` branch of `spec_validate` records as false). -/
def spec_validate_amended (raw : String) : Bool :=
  decide (2 ≤ (cleanL raw.data).length) && spec_validate raw

/-- Characters a cleaned RUT can contain: a decimal digit or `k`. -/
def cleanChar (c : Char) : Bool :=
  c.isDigit || c = 'k'

/-! ## Sample data for concrete instantiations -/

/-- A sample anchor box. -/
def boxA : Rect := ⟨100, 200, 150, 212⟩

/-- A page on which every label search hits `boxA`. -/
def pageA : Page :=
  { searchFor := fun _ => [boxA], width := 612, ops := [] }

/-- A page on which no label is found. -/
def pageNone : Page :=
  { searchFor := fun _ => [], width := 612, ops := [] }

/-- A 200 x 100 signature raster. -/
def imgA : Img := { width := 200, height := 100, tag := 0 }

/-- A text-measure function assigning width 60 to every string. -/
def gtlA : String → ℚ → String → ℚ := fun _ _ _ => 60

/-- A sample byte-buffer decoder over a one-bit buffer type: decoding
succeeds on `true` with one page and fails on `false`. -/
def decodeA : Bool → Option (List String) :=
  fun x => cond x (some ["Nº 123456"]) none

/-! ## Character-level lemmas -/

/-- A decimal digit is unchanged by `Char.toLower`. -/
theorem toLower_of_digit {c : Char} (h : c.isDigit = true) : c.toLower = c := by
  simp [Char.isDigit] at h
  obtain ⟨h1, h2⟩ := h
  have h2n : c.val.toNat ≤ 57 := h2
  unfold Char.toLower
  have hnot : ¬ (c.toNat ≥ 65 ∧ c.toNat ≤ 90) := by
    simp [Char.toNat]
    intro hx
    exact absurd (le_trans hx h2n) (by norm_num)
  simp [hnot]

/-- `toLower` is the identity on clean characters. -/
theorem toLower_of_cleanChar {c : Char} (h : cleanChar c = true) :
    c.toLower = c := by
  unfold cleanChar at h
  rcases Bool.or_eq_true_iff.mp h with hd | hk
  · exact toLower_of_digit hd
  · rw [of_decide_eq_true hk]
    decide

/-- Every character of a cleaned RUT is a digit or `k`. -/
theorem mem_cleanL {l : List Char} {c : Char} (h : c ∈ cleanL l) :
    cleanChar c = true := by
  unfold cleanL at h
  obtain ⟨c0, hc0, rfl⟩ := List.mem_map.mp h
  have hk : keepRut c0 = true := List.of_mem_filter hc0
  unfold keepRut at hk
  unfold cleanChar
  rcases Bool.or_eq_true_iff.mp hk with hk | hk
  · rcases Bool.or_eq_true_iff.mp hk with hd | hkk
    · rw [toLower_of_digit hd]
      simp [hd]
    · rw [of_decide_eq_true hkk]
      decide
  · rw [of_decide_eq_true hk]
    decide

/-- A clean character passes the `[0-9kK]` filter. -/
theorem keepRut_of_cleanChar {c : Char} (h : cleanChar c = true) :
    keepRut c = true := by
  unfold cleanChar at h
  unfold keepRut
  rcases Bool.or_eq_true_iff.mp h with hd | hk
  · simp [hd]
  · simp [of_decide_eq_true hk]

/-- Cleaning is the identity on lists of clean characters. -/
theorem cleanL_of_clean {l : List Char} (h : ∀ c ∈ l, cleanChar c = true) :
    cleanL l = l := by
  unfold cleanL
  have hf : l.filter keepRut = l :=
    List.filter_eq_self.mpr fun c hc => keepRut_of_cleanChar (h c hc)
  rw [hf]
  induction l with
  | nil => rfl
  | cons a l ih =>
    simp only [List.map_cons]
    rw [toLower_of_cleanChar (h a (by simp)),
      ih (fun c hc => h c (by simp [hc])) (by
        apply List.filter_eq_self.mpr
        intro c hc
        exact keepRut_of_cleanChar (h c (by simp [hc])))]

/-! ## Thousands-grouping lemmas -/

/-- Appending one more part to a non-empty join inserts one more dot. -/
theorem joinDots_concat {xs : List (List Char)} (y : List Char) (h : xs ≠ []) :
    joinDots (xs ++ [y]) = joinDots xs ++ '.' :: y := by
  induction xs with
  | nil => exact absurd rfl h
  | cons p rest ih =>
    cases rest with
    | nil => rfl
    | cons q rest2 =>
      show joinDots (p :: (q :: rest2 ++ [y])) = _
      rw [joinDots, joinDots]
      · rw [ih (by simp)]
        simp
      · simp
      · simp

/-- The grouping of a non-empty body is non-empty. -/
theorem grpParts_ne_nil {l : List Char} (h : l ≠ []) : grpParts l ≠ [] := by
  induction l using grpParts.induct with
  | case1 => exact absurd rfl h
  | case2 a => simp [grpParts]
  | case3 a b => simp [grpParts]
  | case4 a b c => simp [grpParts]
  | case5 a b c rest hne ih => simp [grpParts]

/-- The source grouping loop agrees with the spec's dot insertion from the
right. -/
theorem milesL_eq_spec_miles (cuerpo : List Char) :
    milesL cuerpo = spec_miles cuerpo := by
  unfold milesL spec_miles
  generalize cuerpo.reverse = r
  induction r using grpParts.induct with
  | case1 => rfl
  | case2 a => rfl
  | case3 a b => rfl
  | case4 a b c => rfl
  | case5 a b c rest hne ih =>
    have hgr : grpParts rest ≠ [] := grpParts_ne_nil (fun hh => hne hh)
    rw [grpParts]
    simp only [List.map_cons, List.reverse_cons]
    rw [joinDots_concat _ (by simp [hgr])]
    rw [ih]
    obtain ⟨d, rest2, rfl⟩ : ∃ d rest2, rest = d :: rest2 := by
      cases rest with
      | nil => exact absurd rfl (fun hh => hne hh)
      | cons d r2 => exact ⟨d, r2, rfl⟩
    rw [dotRev]
    simp
    exact hne

/-- Filtering away the inserted dots recovers the original characters. -/
theorem filter_keepRut_dotRev (r : List Char) :
    (dotRev r).filter keepRut = r.filter keepRut := by
  induction r using dotRev.induct with
  | case1 a b c d rest ih =>
    rw [dotRev]
    have hdot : keepRut '.' = false := by decide
    simp only [List.filter_cons, hdot, Bool.false_eq_true, if_false, ih]
  | case2 l h =>
    have heq : dotRev l = l := by
      cases l with
      | nil => rfl
      | cons a t =>
        cases t with
        | nil => rfl
        | cons b t2 =>
          cases t2 with
          | nil => rfl
          | cons c t3 =>
            cases t3 with
            | nil => rfl
            | cons d rest => exact (h a b c d rest rfl).elim
    rw [heq]

/-- Filtering the formatted body recovers the body's kept characters. -/
theorem filter_keepRut_milesL (cuerpo : List Char) :
    (milesL cuerpo).filter keepRut = cuerpo.filter keepRut := by
  rw [milesL_eq_spec_miles]
  unfold spec_miles
  rw [List.filter_reverse, filter_keepRut_dotRev, List.filter_reverse,
    List.reverse_reverse]

/-- Cleaning the formatted body of an all-digit body gives the body back. -/
theorem cleanL_milesL {cuerpo : List Char}
    (h : ∀ c ∈ cuerpo, c.isDigit = true) : cleanL (milesL cuerpo) = cuerpo := by
  unfold cleanL
  rw [filter_keepRut_milesL]
  have hf : cuerpo.filter keepRut = cuerpo := by
    apply List.filter_eq_self.mpr
    intro c hc
    unfold keepRut
    simp [h c hc]
  rw [hf]
  induction cuerpo with
  | nil => rfl
  | cons a l ih =>
    simp only [List.map_cons]
    rw [toLower_of_digit (h a (by simp)),
      ih (fun c hc => h c (by simp [hc])) (by
        apply List.filter_eq_self.mpr
        intro c hc
        unfold keepRut
        simp [h c (by simp [hc])])]

/-! ## Formatting lemmas -/

/-- Cleaning undoes formatting: on a list of clean characters, `cleanL` of
the formatted value gives the list back. -/
theorem cleanL_formatCoreL {r : List Char} (h : ∀ c ∈ r, cleanChar c = true) :
    cleanL (formatCoreL r) = r := by
  unfold formatCoreL
  by_cases h0 : r.length = 0
  · simp [h0, List.length_eq_zero.mp h0]
    rfl
  · by_cases h1 : r.length = 1
    · simp [h0, h1, cleanL_of_clean h]
    · simp only [h0, h1, if_false]
      by_cases hd : pyIsDigit r.dropLast = true
      · simp only [hd, if_true]
        have hne : r ≠ [] := fun hh => h0 (by simp [hh])
        have hdig : ∀ c ∈ r.dropLast, c.isDigit = true := by
          unfold pyIsDigit at hd
          intro c hc
          exact (List.all_eq_true.mp (Bool.and_eq_true_iff.mp hd).2) c hc
        have hlast : r.getLastD 'x' ∈ r := by
          rw [List.getLastD_eq_getLast?, List.getLast?_eq_getLast r hne]
          exact List.getLast_mem hne
        unfold cleanL
        rw [List.filter_append, List.map_append]
        have h1' : cleanL (milesL r.dropLast) = r.dropLast := cleanL_milesL hdig
        unfold cleanL at h1'
        rw [h1']
        have hdash : List.filter keepRut ('-' :: [r.getLastD 'x']) =
            [r.getLastD 'x'] := by
          have hk : keepRut '-' = false := by decide
          have hkeep : keepRut (r.getLastD 'x') = true :=
            keepRut_of_cleanChar (h _ hlast)
          simp only [List.filter_cons, List.filter_nil, hk, hkeep]
          simp
        rw [hdash]
        have hlow : Char.toLower (r.getLastD 'x') = r.getLastD 'x' :=
          toLower_of_cleanChar (h _ hlast)
        simp only [List.map_cons, List.map_nil, hlow]
        rw [List.getLastD_eq_getLast?, List.getLast?_eq_getLast r hne]
        simp
        exact List.dropLast_append_getLast hne
      · simp [hd, cleanL_of_clean h]

/-- Cleaning a formatted value gives the cleaned raw value back. -/
theorem clean_format (raw : String) :
    _clean_rut (format_rut raw) = _clean_rut raw := by
  unfold _clean_rut format_rut
  have hdata : (String.mk (formatCoreL (cleanL raw.data))).data =
      formatCoreL (cleanL raw.data) := rfl
  rw [hdata, cleanL_formatCoreL (fun c hc => mem_cleanL hc)]

/-! ## Check-digit lemmas -/

/-- The weight update of the `_calc_dv` loop realises the cycling weights
`2 + k % 6`. -/
theorem weight_step (k : Nat) :
    (if 2 + k % 6 = 7 then 2 else 2 + k % 6 + 1) = 2 + (k + 1) % 6 := by
  by_cases h6 : k % 6 = 5
  · rw [if_pos (by omega)]
    omega
  · rw [if_neg (by omega)]
    omega

/-- On all-digit input, the `_calc_dv` loop computes the spec's weighted sum:
starting from accumulator `s` and the weight of position `k`, it returns `s`
plus the weighted sum of the remaining digits. -/
theorem dvLoop_digits {l : List Char} (h : ∀ c ∈ l, c.isDigit = true) :
    ∀ k s, dvLoop l s (2 + k % 6) = some (s + spec_sum_from k l) := by
  induction l with
  | nil => intro k s; simp [dvLoop, spec_sum_from]
  | cons d rest ih =>
    intro k s
    have hd : d.isDigit = true := h d (by simp)
    rw [dvLoop]
    unfold charDigit?
    rw [if_pos hd]
    show dvLoop rest (s + (d.toNat - 48) * (2 + k % 6))
      (if 2 + k % 6 = 7 then 2 else 2 + k % 6 + 1) = _
    rw [weight_step k, ih (fun c hc => h c (by simp [hc])) (k + 1),
      spec_sum_from]
    ring_nf

/-- A non-digit anywhere in the input drives the loop to `none`. -/
theorem dvLoop_nondigit {l : List Char} {c : Char} (hc : c ∈ l)
    (hnd : c.isDigit = false) : ∀ s m, dvLoop l s m = none := by
  induction l with
  | nil => exact absurd hc (by simp)
  | cons d rest ih =>
    intro s m
    rcases List.mem_cons.mp hc with rfl | hmem
    · rw [dvLoop, charDigit?, if_neg (by simp [hnd])]
    · rw [dvLoop]
      unfold charDigit?
      by_cases hdd : d.isDigit = true
      · simp only [hdd, if_true]
        exact ih hmem _ _
      · simp [hdd]

/-- `_calc_dv` on an all-digit body agrees with the spec's check digit. -/
theorem calc_dv_digits {body : List Char} (h : ∀ c ∈ body, c.isDigit = true) :
    _calc_dvL body = some (dvOut (spec_sum_from 0 body.reverse)) := by
  unfold _calc_dvL
  have hl := dvLoop_digits
    (l := body.reverse) (fun c hc => h c (List.mem_reverse.mp hc)) 0 0
  simp only [Nat.zero_mod, Nat.add_zero] at hl
  rw [hl]
  simp

/-- The check digit is always a single character. -/
theorem dvOut_single (s : Nat) : ∃ d, dvOut s = String.mk [d] := by
  unfold dvOut
  by_cases h1 : 11 - s % 11 = 11
  · exact ⟨'0', by rw [if_pos h1]⟩
  · by_cases h2 : 11 - s % 11 = 10
    · exact ⟨'k', by rw [if_neg h1, if_pos h2]⟩
    · exact ⟨Nat.digitChar (11 - s % 11), by rw [if_neg h1, if_neg h2]⟩

/-- Singleton strings are equal iff their characters are. -/
theorem mk_single_inj {a b : Char} : String.mk [a] = String.mk [b] ↔ a = b := by
  constructor
  · intro h
    have := congrArg String.data h
    simpa using this
  · rintro rfl
    rfl

/-- A singleton list is a suffix of a non-empty list iff it is its last
element. -/
theorem singleton_suffix {c : List Char} {d : Char} (h : c ≠ []) :
    [d].isSuffixOf c = true ↔ c.getLastD 'x' = d := by
  rw [List.isSuffixOf_iff_suffix]
  constructor
  · rintro ⟨t, rfl⟩
    exact List.getLastD_concat _ _ _
  · intro hl
    refine ⟨c.dropLast, ?_⟩
    rw [← hl, List.getLastD_eq_getLast?, List.getLast?_eq_getLast c h]
    exact List.dropLast_append_getLast h

/-- A body that is not purely numeric has no check digit. -/
theorem calc_dvL_none {body : List Char} (hne : body ≠ [])
    (hd : pyIsDigit body = false) : _calc_dvL body = none := by
  have hex : ∃ ch ∈ body, ch.isDigit = false := by
    by_contra hall
    push_neg at hall
    have hpy : pyIsDigit body = true := by
      unfold pyIsDigit
      refine Bool.and_eq_true_iff.mpr ⟨by simp [hne], ?_⟩
      exact List.all_eq_true.mpr fun ch hch =>
        eq_true_of_ne_false (hall ch hch)
    rw [hpy] at hd
    exact absurd hd (by simp)
  obtain ⟨ch, hch, hchd⟩ := hex
  unfold _calc_dvL
  rw [dvLoop_nondigit (List.mem_reverse.mpr hch) hchd]

/-- Helper for C3: the formatted value agrees with the spec's `format`. -/
theorem format_rut_eq_spec (raw : String) :
    format_rut raw = spec_format_rut raw := by
  unfold format_rut spec_format_rut formatCoreL
  set c := cleanL raw.data with hc
  by_cases h0 : c.length = 0
  · have hnil : c = [] := List.length_eq_zero.mp h0
    simp [h0, hnil]
  · by_cases h1 : c.length = 1
    · simp [h0, h1]
    · have hge : ¬ c.length < 2 := by omega
      simp only [h0, h1, hge, if_false]
      by_cases hd : pyIsDigit c.dropLast = true
      · simp [hd, milesL_eq_spec_miles]
      · simp [hd]

/-! ## Claim theorems: the identity validator -/

/-- C1: `_calc_dv` implements the weighted modulo-11 scheme of the spec on
every all-digit body (digits taken right to left, weights cycling
2,3,4,5,6,7, remainder `11 - sum % 11` mapped to `"0"`/`"k"`/digit), and the
known vector holds: body `12345678` has check digit `5`,
`validate("12345678-5")` is true and `validate("12345678-4")` is false. -/
theorem calc_dv_matches_spec :
    (∀ body : String, (∀ c ∈ body.data, c.isDigit = true) →
      _calc_dv body = some (spec_check_digit body)) ∧
    _calc_dv "12345678" = some "5" ∧
    validate_rut "12345678-5" = true ∧
    validate_rut "12345678-4" = false := by
  refine ⟨?_, by decide, by decide, by decide⟩
  intro body h
  unfold _calc_dv spec_check_digit
  rw [calc_dv_digits (fun c hc => h c hc)]
  rfl

/-- Witness for C1 at the known vector. -/
theorem calc_dv_matches_spec_witness :
    (∀ c ∈ ("12345678" : String).data, c.isDigit = true) ∧
    _calc_dv "12345678" = some (spec_check_digit "12345678") :=
  ⟨by decide, calc_dv_matches_spec.1 "12345678" (by decide)⟩

/-- C2 counterexample: on input `"0"` the cleaned value `"0"` ends in the
check digit of its empty body (`compute_check_digit("") = "0"`), yet
`validate` returns false: the claimed biconditional without side conditions
fails. -/
theorem validate_claim_counterexample :
    validate_rut "0" = false ∧ spec_validate "0" = true := by
  constructor
  · decide
  · decide

/-- C2 amended: `validate(raw)` is true iff `clean(raw)` has at least two
characters, the check digit of its body is defined (the body is purely
numeric), and `clean(raw)` ends in that check digit. -/
theorem validate_iff_amended :
    ∀ raw : String, validate_rut raw = spec_validate_amended raw := by
  intro raw
  unfold validate_rut spec_validate_amended spec_validate
  set c := cleanL raw.data with hc
  by_cases hlen : c.length < 2
  · rw [if_pos (by simp [hlen])]
    have hl2 : decide (2 ≤ c.length) = false := by
      simp
      omega
    rw [hl2, Bool.false_and]
  · have hlen2 : decide (2 ≤ c.length) = true := by
      simp
      omega
    have hne : c ≠ [] := by
      intro hh
      rw [hh] at hlen
      exact hlen (by simp)
    have hbody : c.dropLast ≠ [] := by
      have hld : c.dropLast.length = c.length - 1 := List.length_dropLast c
      intro hh
      rw [hh] at hld
      simp at hld
      omega
    by_cases hd : pyIsDigit c.dropLast = true
    · rw [if_neg (by simp [hlen, hd])]
      have hdig : ∀ ch ∈ c.dropLast, ch.isDigit = true := by
        unfold pyIsDigit at hd
        exact List.all_eq_true.mp (Bool.and_eq_true_iff.mp hd).2
      rw [calc_dv_digits hdig]
      obtain ⟨d, hdv⟩ := dvOut_single (spec_sum_from 0 c.dropLast.reverse)
      rw [hdv, hlen2, Bool.true_and]
      show decide (some (String.mk [d]) = some (String.mk [c.getLastD 'x'])) =
        [d].isSuffixOf c
      by_cases heq : c.getLastD 'x' = d
      · rw [(singleton_suffix hne).mpr heq]
        simp only [decide_eq_true_eq, Option.some.injEq, mk_single_inj]
        exact heq.symm
      · have h1 : [d].isSuffixOf c = false := by
          apply Bool.eq_false_iff.mpr
          intro hh
          exact heq ((singleton_suffix hne).mp hh)
        rw [h1]
        simp only [decide_eq_false_iff_not]
        intro hh
        exact heq (mk_single_inj.mp (Option.some_inj.mp hh)).symm
    · rw [if_pos (by simp [hd]), calc_dvL_none hbody (Bool.eq_false_iff.mpr hd)]
      show false = (decide (2 ≤ c.length) && false)
      simp

/-- C3: `format` cleans its input; fewer than 2 cleaned characters or a
non-numeric body are returned unformatted, otherwise the body gets a dot
every 3 digits from the right and is joined to the check digit with `-`;
`format("1") = "1"`, `format("") = ""`, and body `12345678` formats as
`12.345.678`. -/
theorem format_matches_spec :
    (∀ raw : String, format_rut raw = spec_format_rut raw) ∧
    format_rut "1" = "1" ∧ format_rut "" = "" ∧
    _format_miles "12345678" = "12.345.678" := by
  refine ⟨format_rut_eq_spec, by decide, by decide, by decide⟩

/-- C9: formatting is idempotent, proved for every raw input. -/
theorem format_rut_idempotent :
    ∀ raw : String, format_rut (format_rut raw) = format_rut raw := by
  intro raw
  show String.mk (formatCoreL (cleanL (format_rut raw).data)) = format_rut raw
  have h2 : cleanL (format_rut raw).data = cleanL raw.data := by
    have h := clean_format raw
    unfold _clean_rut at h
    exact congrArg String.data h
  rw [h2]
  rfl

/-! ## Extraction lemmas -/

/-- A successful pattern attempt captures 5 to 8 decimal digits. -/
theorem matchAt_digits {s d : List Char} (h : matchAt s = some d) :
    5 ≤ d.length ∧ d.length ≤ 8 ∧ ∀ c ∈ d, c.isDigit = true := by
  unfold matchAt at h
  cases hm : markerMatch s with
  | none => rw [hm] at h; exact absurd h (by simp)
  | some rest =>
    rw [hm] at h
    have h' : (if 5 ≤ (((rest.dropWhile pySpace).takeWhile Char.isDigit).take 8).length
        then some (((rest.dropWhile pySpace).takeWhile Char.isDigit).take 8)
        else none) = some d := h
    by_cases h5 : 5 ≤ (((rest.dropWhile pySpace).takeWhile Char.isDigit).take 8).length
    · rw [if_pos h5] at h'
      obtain rfl : ((rest.dropWhile pySpace).takeWhile Char.isDigit).take 8 = d :=
        Option.some_inj.mp h'
      refine ⟨h5, List.length_take_le _ _, ?_⟩
      intro c hc
      exact List.mem_takeWhile_imp (List.take_subset _ _ hc)
    · rw [if_neg h5] at h'
      exact absurd h' (by simp)

/-- A successful search captures 5 to 8 decimal digits. -/
theorem searchPat_digits {l d : List Char} (h : searchPat l = some d) :
    5 ≤ d.length ∧ d.length ≤ 8 ∧ ∀ c ∈ d, c.isDigit = true := by
  induction l with
  | nil => exact absurd h (by simp [searchPat])
  | cons a rest ih =>
    rw [searchPat] at h
    cases hm : matchAt (a :: rest) with
    | some e =>
      rw [hm] at h
      obtain rfl : e = d := Option.some_inj.mp h
      exact matchAt_digits hm
    | none =>
      rw [hm] at h
      exact ih h

/-- The page scan returns the capture of the first matching page. -/
theorem extraer_first_match :
    ∀ (pre : List String) (t : String) (post : List String) (d : List Char),
      (∀ u ∈ pre, searchPat u.data = none) → searchPat t.data = some d →
      extraer_numero_factura (pre ++ t :: post) = some (String.mk d) := by
  intro pre
  induction pre with
  | nil =>
    intro t post d _ ht
    rw [List.nil_append, extraer_numero_factura, ht]
  | cons u rest ih =>
    intro t post d hpre ht
    rw [List.cons_append, extraer_numero_factura, hpre u (by simp)]
    exact ih t post d (fun v hv => hpre v (by simp [hv])) ht

/-- Without a match on any page, the scan reports absence. -/
theorem extraer_no_match :
    ∀ pages : List String, (∀ u ∈ pages, searchPat u.data = none) →
      extraer_numero_factura pages = none := by
  intro pages
  induction pages with
  | nil => intro _; rfl
  | cons u rest ih =>
    intro h
    rw [extraer_numero_factura, h u (by simp)]
    exact ih (fun v hv => h v (by simp [hv]))

/-- Any extracted value is a run of 5 to 8 decimal digits. -/
theorem extraer_digits {pages : List String} {s : String}
    (h : extraer_numero_factura pages = some s) :
    5 ≤ s.data.length ∧ s.data.length ≤ 8 ∧ ∀ c ∈ s.data, c.isDigit = true := by
  induction pages with
  | nil => exact absurd h (by simp [extraer_numero_factura])
  | cons t rest ih =>
    rw [extraer_numero_factura] at h
    cases hm : searchPat t.data with
    | some d =>
      rw [hm] at h
      obtain rfl : String.mk d = s := Option.some_inj.mp h
      exact searchPat_digits hm
    | none =>
      rw [hm] at h
      exact ih h

/-! ## Claim theorems: the invoice-number extraction -/

/-- C4: the scan returns the capture of the pattern's first match on the
first matching page, in document order, and absence when no page matches;
`"Nº 123456"` yields `"123456"`, `"Nro. 99999999"` yields `"99999999"`, and
text with no marker yields absence. -/
theorem extraccion_correcta :
    (∀ (pre : List String) (t : String) (post : List String) (d : List Char),
      (∀ u ∈ pre, searchPat u.data = none) → searchPat t.data = some d →
      extraer_numero_factura (pre ++ t :: post) = some (String.mk d)) ∧
    (∀ pages : List String, (∀ u ∈ pages, searchPat u.data = none) →
      extraer_numero_factura pages = none) ∧
    extraer_numero_factura ["Factura Nº 123456 de prueba"] = some "123456" ∧
    extraer_numero_factura ["Guía Nro. 99999999"] = some "99999999" ∧
    extraer_numero_factura ["sin dato util"] = none :=
  ⟨extraer_first_match, extraer_no_match, by decide, by decide, by decide⟩

/-- Witness for C4: a non-matching first page followed by a matching second
page. -/
theorem extraccion_correcta_witness :
    (∀ u ∈ (["sin dato util"] : List String), searchPat u.data = none) ∧
    searchPat ("Factura Nº 123456 de prueba").data = some ("123456").data ∧
    extraer_numero_factura
      (["sin dato util"] ++ "Factura Nº 123456 de prueba" :: []) =
      some (String.mk ("123456").data) :=
  ⟨by decide, by decide,
    extraccion_correcta.1 ["sin dato util"] "Factura Nº 123456 de prueba" []
      ("123456").data (by decide) (by decide)⟩

/-- C10: the extraction is total at the byte-buffer interface: an
undecodable buffer yields `none` (the `try/except` fall-through), and any
extracted value is a run of 5 to 8 decimal digits. -/
theorem extraction_total :
    ∀ (α : Type) (decode : α → Option (List String)) (b : α),
      (decode b = none → extraer_desde_bytes decode b = none) ∧
      (∀ s, extraer_desde_bytes decode b = some s →
        5 ≤ s.data.length ∧ s.data.length ≤ 8 ∧
        ∀ c ∈ s.data, c.isDigit = true) := by
  intro α decode b
  constructor
  · intro h
    unfold extraer_desde_bytes
    rw [h]
  · intro s h
    unfold extraer_desde_bytes at h
    cases hd : decode b with
    | none =>
      rw [hd] at h
      exact absurd h (by simp)
    | some pages =>
      rw [hd] at h
      exact extraer_digits h

/-- Witness for C10 over the sample decoder. -/
theorem extraction_total_witness :
    extraer_desde_bytes decodeA false = none ∧
    (5 ≤ ("123456" : String).data.length ∧
      ("123456" : String).data.length ≤ 8 ∧
      ∀ c ∈ ("123456" : String).data, c.isDigit = true) :=
  ⟨(extraction_total Bool decodeA false).1 rfl,
   (extraction_total Bool decodeA true).2 "123456" rfl⟩

/-! ## Claim theorems: the annotation engine -/

/-- C5: with a located anchor box and non-empty text, the field writer emits
one text run at `(box.x1 + offset_x, box.y0 + offset_y)`, and the
orchestrator invokes it with the fixed offsets Nombre `(15,4)`,
Recinto `(15,7)`, RUT `(5,4)`, Fecha `(20,8)`. -/
theorem field_writer_insertion_point :
    (∀ (p : Page) (etiqueta texto : String) (ox oy : ℚ) (box : Rect)
      (rest : List Rect), p.searchFor etiqueta = box :: rest → texto ≠ "" →
      insertar_dato_campo p etiqueta texto ox oy =
        { p with ops := p.ops ++
          [Op.insertText (box.x1 + ox, box.y0 + oy) texto 11 "helv"
            (0, 0, 0)] }) ∧
    (∀ (gtl : String → ℚ → String → ℚ) (doc : List Page) (img : Img)
      (nombre recinto fecha_str rut obs : String) (fw : ℚ) (pagina : Page),
      doc.getLast? = some pagina →
      insertar_firma_y_texto_en_pdf gtl doc img nombre recinto fecha_str rut
          obs fw =
        some (doc.dropLast ++
          [insertar_observacion gtl
            (insertar_firma
              (insertar_dato_campo
                (insertar_dato_campo
                  (insertar_dato_campo
                    (insertar_dato_campo pagina "Nombre:" nombre 15 4)
                    "Recinto:" recinto 15 7)
                  "RUT:" rut 5 4)
                "Fecha:" fecha_str 20 8)
              img fw)
            obs])) := by
  constructor
  · intro p etiqueta texto ox oy box rest hs ht
    unfold insertar_dato_campo
    simp only [hs]
    rw [if_neg ht]
  · intro gtl doc img nombre recinto fecha_str rut obs fw pagina hl
    unfold insertar_firma_y_texto_en_pdf
    simp only [hl]

/-- Witness for C5: one field write at a concrete anchor, and a full
orchestrator run on a one-page document. -/
theorem field_writer_witness :
    (pageA.searchFor "Nombre:" = boxA :: [] ∧ ("Juan" : String) ≠ "" ∧
      insertar_dato_campo pageA "Nombre:" "Juan" 15 4 =
        { pageA with ops := pageA.ops ++
          [Op.insertText (boxA.x1 + 15, boxA.y0 + 4) "Juan" 11 "helv"
            (0, 0, 0)] }) ∧
    (([pageA] : List Page).getLast? = some pageA ∧
      insertar_firma_y_texto_en_pdf gtlA [pageA] imgA "n" "r" "f" "u" "o" 120 =
        some (([pageA] : List Page).dropLast ++
          [insertar_observacion gtlA
            (insertar_firma
              (insertar_dato_campo
                (insertar_dato_campo
                  (insertar_dato_campo
                    (insertar_dato_campo pageA "Nombre:" "n" 15 4)
                    "Recinto:" "r" 15 7)
                  "RUT:" "u" 5 4)
                "Fecha:" "f" 20 8)
              imgA 120)
            "o"])) :=
  ⟨⟨rfl, by decide,
    field_writer_insertion_point.1 pageA "Nombre:" "Juan" 15 4 boxA [] rfl
      (by decide)⟩,
   ⟨rfl,
    field_writer_insertion_point.2 gtlA [pageA] imgA "n" "r" "f" "u" "o" 120
      pageA rfl⟩⟩

/-- C6: a field write with an absent anchor or empty text, a signature
overlay with an absent `"Firma"` anchor, and an observation render with an
absent `"CEDIBLE"` anchor or blank observation, each leave the page
unchanged (so the remaining annotation steps run on an untouched page). -/
theorem missing_anchor_noop :
    (∀ (p : Page) (et txt : String) (ox oy : ℚ), p.searchFor et = [] →
      insertar_dato_campo p et txt ox oy = p) ∧
    (∀ (p : Page) (et : String) (ox oy : ℚ),
      insertar_dato_campo p et "" ox oy = p) ∧
    (∀ (p : Page) (img : Img) (fw : ℚ), p.searchFor "Firma" = [] →
      insertar_firma p img fw = p) ∧
    (∀ (gtl : String → ℚ → String → ℚ) (p : Page) (o : String),
      p.searchFor "CEDIBLE" = [] → insertar_observacion gtl p o = p) ∧
    (∀ (gtl : String → ℚ → String → ℚ) (p : Page) (o : String),
      pyStrip o = [] → insertar_observacion gtl p o = p) := by
  refine ⟨?_, ?_, ?_, ?_, ?_⟩
  · intro p et txt ox oy h
    unfold insertar_dato_campo
    rw [h]
  · intro p et ox oy
    unfold insertar_dato_campo
    cases h : p.searchFor et with
    | nil => rfl
    | cons box rest => simp
  · intro p img fw h
    unfold insertar_firma
    rw [h]
  · intro gtl p o h
    unfold insertar_observacion
    rw [h]
  · intro gtl p o h
    unfold insertar_observacion
    cases hs : p.searchFor "CEDIBLE" with
    | nil => rfl
    | cons cbox rest =>
      simp only []
      rw [if_pos h]

/-- Witness for C6: a missing anchor and a blank observation. -/
theorem missing_anchor_noop_witness :
    (pageNone.searchFor "Nombre:" = [] ∧
      insertar_dato_campo pageNone "Nombre:" "Juan" 15 4 = pageNone) ∧
    (pageA.searchFor "CEDIBLE" = [boxA] ∧ pyStrip "  " = [] ∧
      insertar_observacion gtlA pageA "  " = pageA) :=
  ⟨⟨rfl, missing_anchor_noop.1 pageNone "Nombre:" "Juan" 15 4 rfl⟩,
   ⟨rfl, by decide, missing_anchor_noop.2.2.2.2 gtlA pageA "  " (by decide)⟩⟩

/-- C7: the annotation mutates only the last page: the output has the same
number of pages and every page except the last is unchanged. -/
theorem only_last_page_mutated :
    ∀ (gtl : String → ℚ → String → ℚ) (doc : List Page) (img : Img)
      (n r f ru o : String) (fw : ℚ) (out : List Page),
      insertar_firma_y_texto_en_pdf gtl doc img n r f ru o fw = some out →
      out.length = doc.length ∧
      ∀ i : Nat, i + 1 < doc.length → out[i]? = doc[i]? := by
  intro gtl doc img n r f ru o fw out h
  unfold insertar_firma_y_texto_en_pdf at h
  cases hl : doc.getLast? with
  | none =>
    rw [hl] at h
    exact absurd h (by simp)
  | some pagina =>
    rw [hl] at h
    have hne : doc ≠ [] := by
      intro hh
      rw [hh] at hl
      exact absurd hl (by simp)
    have hlen : 1 ≤ doc.length := by
      cases doc with
      | nil => exact absurd rfl hne
      | cons a t => simp
    obtain rfl : doc.dropLast ++
        [insertar_observacion gtl
          (insertar_firma
            (insertar_dato_campo
              (insertar_dato_campo
                (insertar_dato_campo
                  (insertar_dato_campo pagina "Nombre:" n 15 4)
                  "Recinto:" r 15 7)
                "RUT:" ru 5 4)
              "Fecha:" f 20 8)
            img fw)
          o] = out := Option.some_inj.mp h
    constructor
    · rw [List.length_append, List.length_dropLast]
      simp
      omega
    · intro i hi
      rw [List.getElem?_append]
      have hlt : i < doc.dropLast.length := by
        rw [List.length_dropLast]
        omega
      rw [if_pos hlt, List.dropLast_eq_take, List.getElem?_take,
        if_pos (by omega)]

/-- Witness for C7 on a two-page document whose last page has no anchors, so
the annotation leaves both pages as they were. -/
theorem only_last_page_mutated_witness :
    insertar_firma_y_texto_en_pdf gtlA [pageA, pageNone] imgA "a" "b" "c" "d"
      "e" 120 = some [pageA, pageNone] ∧
    (([pageA, pageNone] : List Page).length =
      ([pageA, pageNone] : List Page).length ∧
      ∀ i : Nat, i + 1 < ([pageA, pageNone] : List Page).length →
        ([pageA, pageNone] : List Page)[i]? =
        ([pageA, pageNone] : List Page)[i]?) :=
  ⟨rfl,
   only_last_page_mutated gtlA [pageA, pageNone] imgA "a" "b" "c" "d" "e" 120
     [pageA, pageNone] rfl⟩

/-- C8: at a located `"Firma"` anchor, the signature is placed in the
rectangle with origin `(box.x0 + 10, box.y0 - 20)`, width the target width
and height scaled by `target_width / raster_width`; concretely, a 200 x 100
raster at target width 120 on the sample page spans y 180 to 240 — placed
height 60. -/
theorem signature_overlay_rect :
    (∀ (p : Page) (img : Img) (fw : ℚ) (box : Rect) (rest : List Rect),
      p.searchFor "Firma" = box :: rest →
      insertar_firma p img fw =
        { p with ops := p.ops ++
          [Op.insertImage
            ⟨box.x0 + 10, box.y0 - 20, box.x0 + 10 + fw,
             box.y0 - 20 + img.height * (fw / img.width)⟩ img] }) ∧
    (insertar_firma pageA imgA 120).ops =
      [Op.insertImage ⟨110, 180, 230, 240⟩ imgA] := by
  constructor
  · intro p img fw box rest hs
    unfold insertar_firma
    simp only [hs]
  · show (insertar_firma pageA imgA 120).ops =
      [Op.insertImage ⟨110, 180, 230, 240⟩ imgA]
    simp only [insertar_firma, pageA, boxA, imgA]
    norm_num

/-- Witness for C8 at the sample anchor. -/
theorem signature_overlay_rect_witness :
    pageA.searchFor "Firma" = boxA :: [] ∧
    insertar_firma pageA imgA 120 =
      { pageA with ops := pageA.ops ++
        [Op.insertImage
          ⟨boxA.x0 + 10, boxA.y0 - 20, boxA.x0 + 10 + 120,
           boxA.y0 - 20 + imgA.height * (120 / imgA.width)⟩ imgA] } :=
  ⟨rfl, signature_overlay_rect.1 pageA imgA 120 boxA [] rfl⟩

end App
